import Mathlib

set_option maxRecDepth 8000

/-
Verification development for the rsmv legacy-cache storage/codec layer.

The embedding below translates, at byte level, the four source components the
claims are about:
  * CS2OpcodeMappings.parseFromString / getMapping / getOpcodeByName
    (cs2opcodes source file),
  * Build727ClientscriptObfuscation.readOpcode / writeOpCode (same file),
  * LegacyFileSource.getFile / getCacheIndex (legacyloader source file),
  * selectFsCache (src/cache/autocache.ts).

Buffers are lists of natural numbers (byte values); strings handled by the
codec are kept as raw byte lists (a JS string immediate corresponds to its
UTF-8 byte sequence).  JS Maps are association lists with in-place update of
the first matching key and append for fresh keys, which coincides with JS Map
semantics because keys stay unique by construction.  Fallible operations
(Node Buffer reads/writes that throw, file reads that throw) return Except.
-/

namespace Rsmv

/-- JS Map.set: replace the first binding of the key in place, otherwise
append a new binding at the end (JS Maps keep insertion order). -/
def jsMapSet {α β : Type} [DecidableEq α] : List (α × β) → α → β → List (α × β)
  | [], k, v => [(k, v)]
  | p :: rest, k, v => if p.1 = k then (k, v) :: rest else p :: jsMapSet rest k v

/-- JS Map.get: value of the first binding of the key, if any. -/
def jsMapGet {α β : Type} [DecidableEq α] (m : List (α × β)) (k : α) : Option β :=
  (m.find? (fun p => decide (p.1 = k))).map Prod.snd

/-- Whitespace as matched by JS String.trim and the split regex for the ASCII
range: tab, LF, VT, FF, CR and space. -/
def jsIsSpace (c : Char) : Bool :=
  c.toNat = 32 || (9 ≤ c.toNat && c.toNat ≤ 13)

/-- JS String.trim on a character list. -/
def jsTrim (l : List Char) : List Char :=
  ((l.dropWhile jsIsSpace).reverse.dropWhile jsIsSpace).reverse

/-- Helper for splitting on runs of whitespace; acc holds the current token
reversed. -/
def splitWsAux : List Char → List Char → List (List Char)
  | [], acc => if acc.isEmpty then [] else [acc.reverse]
  | c :: cs, acc =>
    if jsIsSpace c then
      if acc.isEmpty then splitWsAux cs [] else acc.reverse :: splitWsAux cs []
    else splitWsAux cs (c :: acc)

/-- JS s.split with a whitespace-run pattern, applied to an already trimmed
string: the list of maximal non-whitespace runs. -/
def splitWs (l : List Char) : List (List Char) :=
  splitWsAux l []

/-- Split a character list at every occurrence of the separator, keeping empty
pieces, as JS String.split with a single-character separator does. -/
def splitOnChar (sep : Char) : List Char → List (List Char)
  | [] => [[]]
  | c :: cs =>
    match splitOnChar sep cs with
    | [] => [[c]]
    | t :: ts => if c = sep then [] :: t :: ts else (c :: t) :: ts

def isDecDigit (c : Char) : Bool :=
  48 ≤ c.toNat && c.toNat ≤ 57

/-- Value of a hex digit, if the character is one. -/
def hexDigitVal (c : Char) : Option Nat :=
  if 48 ≤ c.toNat ∧ c.toNat ≤ 57 then Option.some (c.toNat - 48)
  else if 97 ≤ c.toNat ∧ c.toNat ≤ 102 then Option.some (c.toNat - 87)
  else if 65 ≤ c.toNat ∧ c.toNat ≤ 70 then Option.some (c.toNat - 55)
  else Option.none

/-- Magnitude part of JS parseInt with no explicit radix: an optional 0x/0X
prefix switches to base 16, otherwise the longest leading run of decimal
digits is taken; no digits at all gives NaN (None). -/
def jsParseIntMag (cs : List Char) : Option Nat :=
  if cs.take 2 = ['0', 'x'] ∨ cs.take 2 = ['0', 'X'] then
    let ds := (cs.drop 2).takeWhile (fun c => (hexDigitVal c).isSome)
    if ds.isEmpty then Option.none
    else Option.some (ds.foldl (fun a c => a * 16 + (hexDigitVal c).getD 0) 0)
  else
    let ds := cs.takeWhile isDecDigit
    if ds.isEmpty then Option.none
    else Option.some (ds.foldl (fun a c => a * 10 + (c.toNat - 48)) 0)

/-- JS parseInt with no explicit radix, on a token with no surrounding
whitespace (the parser only applies it to whitespace-split tokens):
optional sign, then the magnitude; None is NaN. -/
def jsParseInt (cs : List Char) : Option Int :=
  match cs with
  | '-' :: rest => (jsParseIntMag rest).map (fun n => -(n : Int))
  | '+' :: rest => (jsParseIntMag rest).map (fun n => (n : Int))
  | _ => (jsParseIntMag cs).map (fun n => (n : Int))

/-- One row of the opcode table (type CS2OpcodeMapping in the source).  The
opcode is an Int because JS parseInt may produce any integer. -/
structure CS2OpcodeMapping where
  opcode : Int
  name : String
  returnType : String
  paramTypes : List String
deriving DecidableEq, Repr

/-- The two maps of class CS2OpcodeMappings. -/
structure CS2OpcodeMappings where
  mappings : List (Int × CS2OpcodeMapping)
  nameToOpcode : List (String × Int)
deriving DecidableEq, Repr

def emptyMappings : CS2OpcodeMappings := ⟨[], []⟩

/-- The per-line work of CS2OpcodeMappings.parseFromString: trim; skip blank
lines and lines starting with '#' or '//'; split on whitespace runs; require
at least 3 tokens; parseInt the first token and skip the line on NaN;
otherwise build the mapping from header tokens and remaining param types. -/
def parseLineData (line : List Char) : Option CS2OpcodeMapping :=
  let trimmed := jsTrim line
  if trimmed.isEmpty then Option.none
  else if trimmed.head? = Option.some '#' then Option.none
  else if trimmed.take 2 = ['/', '/'] then Option.none
  else
    let parts := splitWs trimmed
    if parts.length < 3 then Option.none
    else
      match jsParseInt (parts.headD []) with
      | Option.none => Option.none
      | Option.some opcode =>
        Option.some
          { opcode := opcode,
            name := String.mk (parts.getD 1 []),
            returnType := String.mk (parts.getD 2 []),
            paramTypes := (parts.drop 3).map String.mk }

/-- Processing of one line inside the parseFromString loop: a skipped line
leaves the loader unchanged, a valid line sets both maps. -/
def parseLine (loader : CS2OpcodeMappings) (line : List Char) : CS2OpcodeMappings :=
  match parseLineData line with
  | Option.none => loader
  | Option.some m =>
    { mappings := jsMapSet loader.mappings m.opcode m,
      nameToOpcode := jsMapSet loader.nameToOpcode m.name m.opcode }

/-- The lines of the definition file: content.split on the newline
character. -/
def linesOf (content : List Char) : List (List Char) :=
  splitOnChar (Char.ofNat 10) content

/-- The loop of parseFromString over an already split line list. -/
def parseLines (loader : CS2OpcodeMappings) (lines : List (List Char)) : CS2OpcodeMappings :=
  lines.foldl parseLine loader

/-- CS2OpcodeMappings.parseFromString: split the content on newlines and fold
the per-line processing over the lines. -/
def parseFromString (content : List Char) : CS2OpcodeMappings :=
  parseLines emptyMappings (linesOf content)

/-- The opcodes of the valid (entry-producing) lines, in file order. -/
def validOpcodes (lines : List (List Char)) : List Int :=
  lines.filterMap (fun l => (parseLineData l).map CS2OpcodeMapping.opcode)

/-- CS2OpcodeMappings.getMapping. -/
def getMapping (maps : CS2OpcodeMappings) (opcode : Int) : Option CS2OpcodeMapping :=
  jsMapGet maps.mappings opcode

/-- CS2OpcodeMappings.getOpcodeByName. -/
def getOpcodeByName (maps : CS2OpcodeMappings) (name : String) : Option Int :=
  jsMapGet maps.nameToOpcode name

/-- Byte of a buffer at an index; Buffer reads that have been bounds-checked
never see the default. -/
def bufGetD (b : List Nat) (i : Nat) : Nat :=
  b.getD i 0

/-- Buffer.readUInt16BE: big-endian 16-bit unsigned read. -/
def readUInt16BE (b : List Nat) (off : Nat) : Nat :=
  bufGetD b off * 256 + bufGetD b (off + 1)

/-- The typed immediate (field imm_obj of the decoded instruction object):
null, a number, or a string kept as its UTF-8 byte sequence. -/
inductive ImmObj where
  | none
  | int (i : Int)
  | str (s : List Nat)
deriving DecidableEq, Repr

/-- The instruction object produced by readOpcode and consumed by
writeOpCode. -/
structure Instruction where
  opcode : Int
  imm : Int
  imm_obj : ImmObj
  name : String
  returnType : String
  paramTypes : List String
deriving DecidableEq, Repr

/-- The mutable decode state (buffer, scan, endoffset) of the source,
threaded explicitly. -/
structure DecState where
  buffer : List Nat
  scan : Nat
  endoffset : Nat
deriving DecidableEq, Repr

/-- readOpcode additionally reports the console.warn diagnostic the unknown
opcode path emits. -/
structure ReadResult where
  instr : Instruction
  state : DecState
  warning : Option String
deriving DecidableEq, Repr

/-- Node Buffer reads throw a RangeError when the requested bytes extend past
the buffer. -/
inductive DecodeErr where
  | outOfBounds
deriving DecidableEq, Repr

/-- Node Buffer writes throw when the value does not fit the field. -/
inductive EncodeErr where
  | valueOutOfRange
deriving DecidableEq, Repr

/-- Two's-complement big-endian bytes of a 32-bit signed integer, as
Buffer.writeInt32BE stores an in-range value. -/
def int32ToBytes (i : Int) : List Nat :=
  let u : Nat := if 0 ≤ i then i.toNat else (i + 4294967296).toNat
  [u / 16777216 % 256, u / 65536 % 256, u / 256 % 256, u % 256]

/-- Buffer.readInt32BE: big-endian 32-bit read, reinterpreted as signed. -/
def readInt32BE (b : List Nat) (off : Nat) : Int :=
  let u := bufGetD b off * 16777216 + bufGetD b (off + 1) * 65536
    + bufGetD b (off + 2) * 256 + bufGetD b (off + 3)
  if u < 2147483648 then (u : Int) else (u : Int) - 4294967296

/-- The while loop of the string-immediate branch: advance scan while it is
below endoffset and the byte under it is not zero.  fuel is the remaining
distance endoffset - scan, so fuel = 0 exactly when scan has reached
endoffset; indexing past the buffer yields no byte (JS undefined), which
compares unequal to zero, as in the source. -/
def scanToZero (b : List Nat) : Nat → Nat → Nat
  | 0, scan => scan
  | fuel + 1, scan =>
    if b.get? scan = Option.some 0 then scan else scanToZero b fuel (scan + 1)

/-- Build727ClientscriptObfuscation.readOpcode: read a big-endian 16-bit
opcode and advance by 2; unknown opcodes produce a synthetic instruction and
a warning; otherwise the first declared parameter type selects the immediate:
int/component read a big-endian int32 (advance 4), string scans to a zero
byte bounded by endoffset, takes the intervening bytes (clamped to the
buffer, as Buffer.toString clamps) and skips the terminator. -/
def readOpcode (maps : CS2OpcodeMappings) (st : DecState) : Except DecodeErr ReadResult :=
  if st.buffer.length < st.scan + 2 then Except.error DecodeErr.outOfBounds
  else
    let rawOpcode := readUInt16BE st.buffer st.scan
    let st1 : DecState := ⟨st.buffer, st.scan + 2, st.endoffset⟩
    match getMapping maps (rawOpcode : Int) with
    | Option.none =>
      Except.ok ⟨⟨(rawOpcode : Int), 0, ImmObj.none, "unknown_" ++ toString rawOpcode,
        "unknown", []⟩, st1, Option.some ("Unknown CS2 opcode: " ++ toString rawOpcode)⟩
    | Option.some mapping =>
      if 0 < mapping.paramTypes.length then
        let firstParam := mapping.paramTypes.headD ""
        if firstParam = "int" ∨ firstParam = "component" then
          if st1.buffer.length < st1.scan + 4 then Except.error DecodeErr.outOfBounds
          else
            let imm := readInt32BE st1.buffer st1.scan
            Except.ok ⟨⟨(rawOpcode : Int), imm, ImmObj.int imm, mapping.name,
              mapping.returnType, mapping.paramTypes⟩,
              ⟨st.buffer, st1.scan + 4, st.endoffset⟩, Option.none⟩
        else if firstParam = "string" then
          let stringStart := st1.scan
          let stop := scanToZero st.buffer (st.endoffset - st1.scan) st1.scan
          Except.ok ⟨⟨(rawOpcode : Int), 0,
            ImmObj.str ((st.buffer.drop stringStart).take (stop - stringStart)),
            mapping.name, mapping.returnType, mapping.paramTypes⟩,
            ⟨st.buffer, stop + 1, st.endoffset⟩, Option.none⟩
        else
          Except.ok ⟨⟨(rawOpcode : Int), 0, ImmObj.none, mapping.name,
            mapping.returnType, mapping.paramTypes⟩, st1, Option.none⟩
      else
        Except.ok ⟨⟨(rawOpcode : Int), 0, ImmObj.none, mapping.name,
          mapping.returnType, mapping.paramTypes⟩, st1, Option.none⟩

/-- Build727ClientscriptObfuscation.writeOpCode, as the byte sequence it
appends at the cursor: the opcode as big-endian 16 bits
(Buffer.writeUInt16BE throws outside 0..65535), then, when imm_obj is
present, either the big-endian signed 32-bit immediate
(Buffer.writeInt32BE throws outside the int32 range) or the string bytes
followed by one zero terminator. -/
def writeOpCode (x : Instruction) : Except EncodeErr (List Nat) :=
  if x.opcode < 0 ∨ 65535 < x.opcode then Except.error EncodeErr.valueOutOfRange
  else
    let opBytes := [x.opcode.toNat / 256, x.opcode.toNat % 256]
    match x.imm_obj with
    | ImmObj.none => Except.ok opBytes
    | ImmObj.int i =>
      if i < -2147483648 ∨ 2147483647 < i then Except.error EncodeErr.valueOutOfRange
      else Except.ok (opBytes ++ int32ToBytes i)
    | ImmObj.str s => Except.ok (opBytes ++ s ++ [0])

/-- decodeOne after encodeOne, starting the decode at the beginning of the
produced bytes with streamEnd at their end; None when either side fails. -/
def roundTrip (maps : CS2OpcodeMappings) (x : Instruction) : Option Instruction :=
  match writeOpCode x with
  | Except.error _ => Option.none
  | Except.ok bytes =>
    match readOpcode maps ⟨bytes, 0, bytes.length⟩ with
    | Except.error _ => Option.none
    | Except.ok r => Option.some r.instr

/-- The three immediate kinds the specification distinguishes. -/
inductive ImmKind where
  | noImm
  | intImm
  | strImm
deriving DecidableEq, Repr

def immKind : ImmObj → ImmKind
  | ImmObj.none => ImmKind.noImm
  | ImmObj.int _ => ImmKind.intImm
  | ImmObj.str _ => ImmKind.strImm

/-- The immediate kind an opcode's table entry implies: int/component first
parameter means an int32 immediate, string means a string immediate,
anything else (including an unmapped opcode or an empty parameter list)
means no immediate. -/
def impliedKind (maps : CS2OpcodeMappings) (opcode : Int) : ImmKind :=
  match getMapping maps opcode with
  | Option.none => ImmKind.noImm
  | Option.some m =>
    if 0 < m.paramTypes.length then
      let firstParam := m.paramTypes.headD ""
      if firstParam = "int" ∨ firstParam = "component" then ImmKind.intImm
      else if firstParam = "string" then ImmKind.strImm
      else ImmKind.noImm
    else ImmKind.noImm

/-- An integer immediate must be a 32-bit signed value; the other immediate
forms carry no such constraint. -/
def int32Ok : ImmObj → Prop
  | ImmObj.int i => -2147483648 ≤ i ∧ i ≤ 2147483647
  | _ => True

instance int32OkDec : (o : ImmObj) → Decidable (int32Ok o)
  | ImmObj.int i => inferInstanceAs (Decidable (-2147483648 ≤ i ∧ i ≤ (2147483647 : Int)))
  | ImmObj.none => inferInstanceAs (Decidable True)
  | ImmObj.str _ => inferInstanceAs (Decidable True)

/-- An Instruction as the data model describes it, whose immediate kind
matches what its opcode's first declared parameter type implies: the opcode
is a 16-bit unsigned value, an integer immediate is a 32-bit signed value,
and the kinds agree. -/
def kindMatches (maps : CS2OpcodeMappings) (x : Instruction) : Prop :=
  0 ≤ x.opcode ∧ x.opcode ≤ 65535 ∧ int32Ok x.imm_obj ∧
  immKind x.imm_obj = impliedKind maps x.opcode

instance (maps : CS2OpcodeMappings) (x : Instruction) : Decidable (kindMatches maps x) :=
  inferInstanceAs (Decidable (_ ∧ _ ∧ _ ∧ _))

/-- True when a string immediate contains no zero byte (a NUL inside the
string would be taken as the terminator on decode). -/
def noNulImm : ImmObj → Bool
  | ImmObj.str s => !s.contains 0
  | _ => true

/-- Buffer.readUIntBE with byteLength 3: big-endian 3-byte unsigned read. -/
def readUIntBE3 (b : List Nat) (off : Nat) : Nat :=
  bufGetD b off * 65536 + bufGetD b (off + 1) * 256 + bufGetD b (off + 2)

/-- The error conditions of LegacyFileSource.getFile, keyed to the three
throw sites inside its try block (each is wrapped into a per-file message
before surfacing, which preserves which condition fired). -/
inductive LegacyErr where
  | notFoundInIndex
  | zeroSize
  | shortRead
deriving DecidableEq, Repr

/-- The specification's RecordNotFound covers the two index-entry failures of
getFile: an entry lying past the index file and an entry with stored size
zero. -/
def recordNotFound (e : LegacyErr) : Prop :=
  e = LegacyErr.notFoundInIndex ∨ e = LegacyErr.zeroSize

/-- LegacyFileSource.getFile for one category: its index file's bytes and the
main_file_cache.dat2 bytes are passed in (the source reads them from disk).
The 6-byte entry at minor * 6 yields a 3-byte big-endian size then a 3-byte
big-endian offset; an entry past the index or a zero size throws; the read
from the data file returns min(size, fileLength - offset) bytes and a short
read throws. -/
def getFile (indexBuffer datFile : List Nat) (minor : Nat) : Except LegacyErr (List Nat) :=
  let entryOffset := minor * 6
  if indexBuffer.length < entryOffset + 6 then Except.error LegacyErr.notFoundInIndex
  else
    let size := readUIntBE3 indexBuffer entryOffset
    let offset := readUIntBE3 indexBuffer (entryOffset + 3)
    if size = 0 then Except.error LegacyErr.zeroSize
    else
      let bytesRead := min size (datFile.length - offset)
      if bytesRead ≠ size then Except.error LegacyErr.shortRead
      else Except.ok ((datFile.drop offset).take size)

/-- One element of the CacheIndexFile array built by getCacheIndex (crc and
version are synthesized as zero, name and subnames as null). -/
structure CacheIndex where
  major : Nat
  minor : Nat
  crc : Nat
  version : Nat
  size : Nat
  name : Option String
  subindexcount : Nat
  subindices : List Nat
  subnames : Option (List String)
  uncompressed_crc : Nat
  uncompressed_size : Nat
deriving DecidableEq, Repr

/-- The entry getCacheIndex assigns at slot minor when the stored size is
positive. -/
def mkCacheIndex (major minor size : Nat) : CacheIndex :=
  ⟨major, minor, 0, 0, size, Option.none, 1, [0], Option.none, 0, size⟩

/-- LegacyFileSource.getCacheIndex for one category: floor(length / 6) slots,
the slot at minor holding an entry exactly when the 3-byte big-endian size at
minor * 6 is positive (the source leaves the other slots as holes of a sparse
JS array, modelled as None). -/
def getCacheIndex (major : Nat) (indexBuffer : List Nat) : List (Option CacheIndex) :=
  (List.range (indexBuffer.length / 6)).map (fun minor =>
    let size := readUIntBE3 indexBuffer (minor * 6)
    if 0 < size then Option.some (mkCacheIndex major minor size) else Option.none)

/-- Word character of the JS regex class backslash-w: ASCII letter, digit or
underscore. -/
def isWordChar (c : Char) : Bool :=
  (48 ≤ c.toNat && c.toNat ≤ 57) || (65 ≤ c.toNat && c.toNat ≤ 90)
    || (97 ≤ c.toNat && c.toNat ≤ 122) || c.toNat = 95

/-- The characters after the last dot of a name, when the name has a dot. -/
def afterLastDot : List Char → Option (List Char)
  | [] => Option.none
  | c :: cs =>
    match afterLastDot cs with
    | Option.some r => Option.some r
    | Option.none => if c = '.' then Option.some cs else Option.none

/-- The extension capture of the regex matching a dot followed by word
characters at the end of the name: it matches exactly when the part after the
last dot is a nonempty run of word characters. -/
def extOf (name : List Char) : Option (List Char) :=
  match afterLastDot name with
  | Option.none => Option.none
  | Option.some s =>
    if !s.isEmpty && s.all isWordChar then Option.some s else Option.none

/-- The legacy-index filename pattern: the literal main_file_cache.idx
followed by one or more digits, to the end of the name. -/
def isIdxName (name : List Char) : Bool :=
  name.take 19 == "main_file_cache.idx".data
    && !(name.drop 19).isEmpty && (name.drop 19).all isDecDigit

/-- The two ScriptFS implementations selectFsCache distinguishes: the CLI
filesystem and the browser filesystem with or without a disk-backed root
handle. -/
inductive FsKind where
  | cli
  | web (roothandle : Bool)
deriving DecidableEq, Repr

/-- The concrete stores selectFsCache can construct. -/
inductive CacheChoice where
  | modernSqlite
  | modernWasm
  | legacy
  | classic
deriving DecidableEq, Repr

/-- The throw sites of selectFsCache. -/
inductive SelectErr where
  | noCacheFiles
  | needHardDisk
  | legacyNeedsFs
  | unknownType
deriving DecidableEq, Repr

/-- Number of directory entries whose extension equals the given one. -/
def countExt (files : List (List Char)) (ext : List Char) : Nat :=
  files.countP (fun f => extOf f == Option.some ext)

/-- Number of directory entries matching the legacy-index pattern. -/
def countIdx (files : List (List Char)) : Nat :=
  files.countP isIdxName

/-- selectFsCache of src/cache/autocache.ts over a directory listing: count
the five signatures, fail when the maximum is zero, then test the signatures
in source order.  The old-binary (dat) and old-binary-compressed (dat2)
checks of the source have empty TODO bodies and fall through, so they are
omitted here exactly as they have no effect there; control then reaches the
jag check and finally the unknown-type throw. -/
def selectFsCache (fsk : FsKind) (files : List (List Char)) : Except SelectErr CacheChoice :=
  let jcachecount := countExt files "jcache".data
  let datcount := countExt files "dat".data
  let dat2count := countExt files "dat2".data
  let jagcount := countExt files "jag".data
  let idxcount := countIdx files
  let maxcount := max (max (max (max jcachecount datcount) dat2count) jagcount) idxcount
  if maxcount = 0 then Except.error SelectErr.noCacheFiles
  else if maxcount = jcachecount then
    match fsk with
    | FsKind.cli => Except.ok CacheChoice.modernSqlite
    | FsKind.web true => Except.ok CacheChoice.modernWasm
    | FsKind.web false => Except.error SelectErr.needHardDisk
  else if maxcount = idxcount ∧ 0 < dat2count then
    match fsk with
    | FsKind.cli => Except.ok CacheChoice.legacy
    | FsKind.web _ => Except.error SelectErr.legacyNeedsFs
  else if maxcount = jagcount then Except.ok CacheChoice.classic
  else Except.error SelectErr.unknownType

/-- A one-entry opcode table whose opcode 1 declares a string first
parameter. -/
def strTable : CS2OpcodeMappings :=
  ⟨[((1 : Int), ⟨1, "f", "t", ["string"]⟩)], [("f", (1 : Int))]⟩

/-- An instruction for opcode 1 of strTable whose string immediate is the
single NUL byte. -/
def nulInstr : Instruction :=
  ⟨1, 0, ImmObj.str [0], "f", "t", ["string"]⟩

theorem jsMapGet_cons {α β : Type} [DecidableEq α] (p : α × β) (rest : List (α × β)) (k : α) :
    jsMapGet (p :: rest) k = if p.1 = k then Option.some p.2 else jsMapGet rest k := by
  by_cases h : p.1 = k <;> simp [jsMapGet, List.find?_cons, h]

theorem jsMapGet_set_self {α β : Type} [DecidableEq α] (m : List (α × β)) (k : α) (v : β) :
    jsMapGet (jsMapSet m k v) k = Option.some v := by
  induction m with
  | nil => simp [jsMapSet, jsMapGet_cons]
  | cons p rest ih =>
    by_cases h : p.1 = k
    · simp [jsMapSet, h, jsMapGet_cons]
    · simp [jsMapSet, h, jsMapGet_cons, ih]

theorem jsMapGet_set_ne {α β : Type} [DecidableEq α] (m : List (α × β)) (k k' : α) (v : β)
    (h : k' ≠ k) : jsMapGet (jsMapSet m k v) k' = jsMapGet m k' := by
  have hkk : k ≠ k' := Ne.symm h
  induction m with
  | nil => simp [jsMapSet, jsMapGet_cons, hkk]
  | cons p rest ih =>
    by_cases hp : p.1 = k
    · rw [show jsMapSet (p :: rest) k v = (k, v) :: rest by simp [jsMapSet, hp]]
      rw [jsMapGet_cons, jsMapGet_cons]
      simp only [if_neg hkk]
      rw [if_neg (show ¬ p.1 = k' from hp ▸ hkk)]
    · rw [show jsMapSet (p :: rest) k v = p :: jsMapSet rest k v by simp [jsMapSet, hp]]
      rw [jsMapGet_cons, jsMapGet_cons, ih]

theorem jsMapSet_keys_of_mem {α β : Type} [DecidableEq α] (m : List (α × β)) (k : α) (v : β)
    (h : k ∈ m.map Prod.fst) : (jsMapSet m k v).map Prod.fst = m.map Prod.fst := by
  induction m with
  | nil => simp at h
  | cons p rest ih =>
    by_cases hp : p.1 = k
    · simp [jsMapSet, hp]
    · have hk : k ∈ rest.map Prod.fst := by
        simp only [List.map_cons, List.mem_cons] at h
        rcases h with h | h
        · exact absurd h.symm hp
        · exact h
      simp [jsMapSet, hp, ih hk]

theorem jsMapSet_keys_of_not_mem {α β : Type} [DecidableEq α] (m : List (α × β)) (k : α) (v : β)
    (h : k ∉ m.map Prod.fst) : (jsMapSet m k v).map Prod.fst = m.map Prod.fst ++ [k] := by
  induction m with
  | nil => simp [jsMapSet]
  | cons p rest ih =>
    have hp : p.1 ≠ k := by
      intro hc
      exact h (by simp [hc])
    have hrest : k ∉ rest.map Prod.fst := by
      intro hc
      exact h (by simp [hc])
    simp [jsMapSet, hp, ih hrest]

theorem scanToZero_of_all_nonzero (b : List Nat) (fuel scan : Nat)
    (h : ∀ i, scan ≤ i → i < scan + fuel → b.get? i ≠ Option.some 0) :
    scanToZero b fuel scan = scan + fuel := by
  induction fuel generalizing scan with
  | zero => rfl
  | succ fuel ih =>
    have hc : b.get? scan ≠ Option.some 0 := h scan (Nat.le_refl _) (by omega)
    have hrec := ih (scan + 1) (fun i h1 h2 => h i (by omega) (by omega))
    simp only [scanToZero]
    rw [if_neg hc, hrec]
    omega

theorem scanToZero_finds_zero (b : List Nat) (fuel scan j : Nat)
    (hj1 : scan ≤ j) (hj2 : j < scan + fuel) (h0 : b.get? j = Option.some 0)
    (hne : ∀ i, scan ≤ i → i < j → b.get? i ≠ Option.some 0) :
    scanToZero b fuel scan = j := by
  induction fuel generalizing scan with
  | zero => omega
  | succ fuel ih =>
    by_cases hc : b.get? scan = Option.some 0
    · have hs : scan = j := by
        by_contra hne'
        exact hne scan (Nat.le_refl _) (by omega) hc
      simp only [scanToZero]
      rw [if_pos hc]
      exact hs
    · have hsj : scan ≠ j := fun hh => hc (hh ▸ h0)
      have hrec := ih (scan + 1) (by omega) (by omega) (fun i h1 h2 => hne i (by omega) h2)
      simp only [scanToZero]
      rw [if_neg hc]
      exact hrec

theorem getMapping_parseLine_self (L : CS2OpcodeMappings) (l : List Char) (m : CS2OpcodeMapping)
    (h : parseLineData l = Option.some m) :
    getMapping (parseLine L l) m.opcode = Option.some m := by
  simp only [parseLine, h, getMapping]
  exact jsMapGet_set_self _ _ _

theorem getMapping_parseLine_ne (L : CS2OpcodeMappings) (l : List Char) (k : Int)
    (h : ∀ m, parseLineData l = Option.some m → m.opcode ≠ k) :
    getMapping (parseLine L l) k = getMapping L k := by
  cases hp : parseLineData l with
  | none => simp only [parseLine, hp]
  | some m =>
    simp only [parseLine, hp, getMapping]
    exact jsMapGet_set_ne _ _ _ _ (Ne.symm (h m hp))

theorem getOpcodeByName_parseLine_self (L : CS2OpcodeMappings) (l : List Char)
    (m : CS2OpcodeMapping) (h : parseLineData l = Option.some m) :
    getOpcodeByName (parseLine L l) m.name = Option.some m.opcode := by
  simp only [parseLine, h, getOpcodeByName]
  exact jsMapGet_set_self _ _ _

theorem getOpcodeByName_parseLine_ne (L : CS2OpcodeMappings) (l : List Char) (k : String)
    (h : ∀ m, parseLineData l = Option.some m → m.name ≠ k) :
    getOpcodeByName (parseLine L l) k = getOpcodeByName L k := by
  cases hp : parseLineData l with
  | none => simp only [parseLine, hp]
  | some m =>
    simp only [parseLine, hp, getOpcodeByName]
    exact jsMapGet_set_ne _ _ _ _ (Ne.symm (h m hp))

theorem parseLines_getMapping_preserved (ls : List (List Char)) (L : CS2OpcodeMappings) (k : Int)
    (h : ∀ j, j < ls.length → ∀ m, parseLineData (ls.getD j []) = Option.some m → m.opcode ≠ k) :
    getMapping (parseLines L ls) k = getMapping L k := by
  induction ls generalizing L with
  | nil => rfl
  | cons l rest ih =>
    have h0 : ∀ m, parseLineData l = Option.some m → m.opcode ≠ k := by
      intro m hm
      exact h 0 (by simp) m (by simpa using hm)
    have hrest : ∀ j, j < rest.length → ∀ m,
        parseLineData (rest.getD j []) = Option.some m → m.opcode ≠ k := by
      intro j hj m hm
      exact h (j + 1) (by simpa using Nat.succ_lt_succ hj) m (by simpa using hm)
    show getMapping (parseLines (parseLine L l) rest) k = getMapping L k
    rw [ih (parseLine L l) hrest, getMapping_parseLine_ne L l k h0]

theorem parseLines_getName_preserved (ls : List (List Char)) (L : CS2OpcodeMappings) (k : String)
    (h : ∀ j, j < ls.length → ∀ m, parseLineData (ls.getD j []) = Option.some m → m.name ≠ k) :
    getOpcodeByName (parseLines L ls) k = getOpcodeByName L k := by
  induction ls generalizing L with
  | nil => rfl
  | cons l rest ih =>
    have h0 : ∀ m, parseLineData l = Option.some m → m.name ≠ k := by
      intro m hm
      exact h 0 (by simp) m (by simpa using hm)
    have hrest : ∀ j, j < rest.length → ∀ m,
        parseLineData (rest.getD j []) = Option.some m → m.name ≠ k := by
      intro j hj m hm
      exact h (j + 1) (by simpa using Nat.succ_lt_succ hj) m (by simpa using hm)
    show getOpcodeByName (parseLines (parseLine L l) rest) k = getOpcodeByName L k
    rw [ih (parseLine L l) hrest, getOpcodeByName_parseLine_ne L l k h0]

theorem parseLines_lookup (ls : List (List Char)) (L : CS2OpcodeMappings) (i : Nat)
    (m : CS2OpcodeMapping) (hi : i < ls.length)
    (hline : parseLineData (ls.getD i []) = Option.some m)
    (hop : ∀ j, i < j → j < ls.length →
      ∀ m', parseLineData (ls.getD j []) = Option.some m' → m'.opcode ≠ m.opcode)
    (hname : ∀ j, i < j → j < ls.length →
      ∀ m', parseLineData (ls.getD j []) = Option.some m' → m'.name ≠ m.name) :
    getMapping (parseLines L ls) m.opcode = Option.some m ∧
    getOpcodeByName (parseLines L ls) m.name = Option.some m.opcode := by
  induction ls generalizing L i with
  | nil => simp at hi
  | cons l rest ih =>
    cases i with
    | zero =>
      have hl : parseLineData l = Option.some m := by simpa using hline
      have hop' : ∀ j, j < rest.length → ∀ m',
          parseLineData (rest.getD j []) = Option.some m' → m'.opcode ≠ m.opcode := by
        intro j hj m' hm'
        exact hop (j + 1) (Nat.succ_pos j) (by simpa using Nat.succ_lt_succ hj) m'
          (by simpa using hm')
      have hname' : ∀ j, j < rest.length → ∀ m',
          parseLineData (rest.getD j []) = Option.some m' → m'.name ≠ m.name := by
        intro j hj m' hm'
        exact hname (j + 1) (Nat.succ_pos j) (by simpa using Nat.succ_lt_succ hj) m'
          (by simpa using hm')
      constructor
      · show getMapping (parseLines (parseLine L l) rest) m.opcode = Option.some m
        rw [parseLines_getMapping_preserved rest (parseLine L l) m.opcode hop']
        exact getMapping_parseLine_self L l m hl
      · show getOpcodeByName (parseLines (parseLine L l) rest) m.name = Option.some m.opcode
        rw [parseLines_getName_preserved rest (parseLine L l) m.name hname']
        exact getOpcodeByName_parseLine_self L l m hl
    | succ i' =>
      have hi' : i' < rest.length := by simpa using Nat.lt_of_succ_lt_succ hi
      have hline' : parseLineData (rest.getD i' []) = Option.some m := by simpa using hline
      have hop' : ∀ j, i' < j → j < rest.length → ∀ m',
          parseLineData (rest.getD j []) = Option.some m' → m'.opcode ≠ m.opcode := by
        intro j hj1 hj2 m' hm'
        exact hop (j + 1) (Nat.succ_lt_succ hj1) (by simpa using Nat.succ_lt_succ hj2) m'
          (by simpa using hm')
      have hname' : ∀ j, i' < j → j < rest.length → ∀ m',
          parseLineData (rest.getD j []) = Option.some m' → m'.name ≠ m.name := by
        intro j hj1 hj2 m' hm'
        exact hname (j + 1) (Nat.succ_lt_succ hj1) (by simpa using Nat.succ_lt_succ hj2) m'
          (by simpa using hm')
      exact ih (parseLine L l) i' hi' hline' hop' hname'

theorem parseLines_keys (ls : List (List Char)) (L : CS2OpcodeMappings)
    (hnd : (L.mappings.map Prod.fst).Nodup) :
    ((parseLines L ls).mappings.map Prod.fst).Nodup ∧
    ((parseLines L ls).mappings.map Prod.fst).toFinset =
      (L.mappings.map Prod.fst).toFinset ∪ (validOpcodes ls).toFinset := by
  induction ls generalizing L with
  | nil => simp [parseLines, validOpcodes, hnd]
  | cons l rest ih =>
    have hstep : parseLines L (l :: rest) = parseLines (parseLine L l) rest := rfl
    cases hp : parseLineData l with
    | none =>
      have hL : parseLine L l = L := by simp [parseLine, hp]
      have hv : validOpcodes (l :: rest) = validOpcodes rest := by simp [validOpcodes, hp]
      rw [hstep, hL, hv]
      exact ih L hnd
    | some m =>
      have hv : validOpcodes (l :: rest) = m.opcode :: validOpcodes rest := by
        simp [validOpcodes, hp]
      by_cases hmem : m.opcode ∈ L.mappings.map Prod.fst
      · have hkeys : (parseLine L l).mappings.map Prod.fst = L.mappings.map Prod.fst := by
          simp only [parseLine, hp]
          exact jsMapSet_keys_of_mem _ _ _ hmem
        obtain ⟨hnd', hfin⟩ := ih (parseLine L l) (by rw [hkeys]; exact hnd)
        refine ⟨by rw [hstep]; exact hnd', ?_⟩
        rw [hstep, hfin, hkeys, hv, List.toFinset_cons]
        have hmf : m.opcode ∈ (L.mappings.map Prod.fst).toFinset := List.mem_toFinset.mpr hmem
        ext x
        simp only [Finset.mem_union, Finset.mem_insert]
        constructor
        · intro h
          rcases h with h | h
          · exact Or.inl h
          · exact Or.inr (Or.inr h)
        · intro h
          rcases h with h | h | h
          · exact Or.inl h
          · exact Or.inl (h ▸ hmf)
          · exact Or.inr h
      · have hkeys : (parseLine L l).mappings.map Prod.fst
            = L.mappings.map Prod.fst ++ [m.opcode] := by
          simp only [parseLine, hp]
          exact jsMapSet_keys_of_not_mem _ _ _ hmem
        have hnd2 : ((parseLine L l).mappings.map Prod.fst).Nodup := by
          rw [hkeys]
          simp [List.nodup_append, hnd, hmem]
        obtain ⟨hnd', hfin⟩ := ih (parseLine L l) hnd2
        refine ⟨by rw [hstep]; exact hnd', ?_⟩
        rw [hstep, hfin, hkeys, hv, List.toFinset_cons, List.toFinset_append]
        ext x
        simp only [Finset.mem_union, Finset.mem_insert, List.toFinset_cons, List.toFinset_nil,
          Finset.mem_singleton, Finset.not_mem_empty, or_false]
        constructor
        · intro h
          rcases h with (h | h) | h
          · exact Or.inl h
          · exact Or.inr (Or.inl h)
          · exact Or.inr (Or.inr h)
        · intro h
          rcases h with h | h | h
          · exact Or.inl (Or.inl h)
          · exact Or.inl (Or.inr h)
          · exact Or.inr h

theorem readInt32BE_int32ToBytes (a b : Nat) (i : Int)
    (h1 : -2147483648 ≤ i) (h2 : i ≤ 2147483647) :
    readInt32BE (a :: b :: int32ToBytes i) 2 = i := by
  unfold readInt32BE int32ToBytes bufGetD
  by_cases hpos : 0 ≤ i
  · have hn : i.toNat ≤ 2147483647 := by omega
    simp only [hpos, if_true]
    simp only [List.getD, List.get?, Option.getD_some]
    have hrec : i.toNat / 16777216 % 256 * 16777216 + i.toNat / 65536 % 256 * 65536
        + i.toNat / 256 % 256 * 256 + i.toNat % 256 = i.toNat := by omega
    rw [hrec]
    have : i.toNat < 2147483648 := by omega
    simp only [this, if_true]
    omega
  · have hneg : ¬ (0 ≤ i) := hpos
    simp only [hneg, if_false]
    simp only [List.getD, List.get?, Option.getD_some]
    set n : Nat := (i + 4294967296).toNat with hn
    have hlo : 2147483648 ≤ n := by omega
    have hhi : n < 4294967296 := by omega
    have hrec : n / 16777216 % 256 * 16777216 + n / 65536 % 256 * 65536
        + n / 256 % 256 * 256 + n % 256 = n := by omega
    rw [hrec]
    have : ¬ (n < 2147483648) := by omega
    simp only [this, if_false]
    omega

theorem readOpcode_unknown (maps : CS2OpcodeMappings) (st : DecState)
    (hb : st.scan + 2 ≤ st.buffer.length)
    (hm : getMapping maps (readUInt16BE st.buffer st.scan : Nat) = Option.none) :
    readOpcode maps st = Except.ok
      ⟨⟨(readUInt16BE st.buffer st.scan : Nat), 0, ImmObj.none,
        "unknown_" ++ toString (readUInt16BE st.buffer st.scan), "unknown", []⟩,
       ⟨st.buffer, st.scan + 2, st.endoffset⟩,
       Option.some ("Unknown CS2 opcode: " ++ toString (readUInt16BE st.buffer st.scan))⟩ := by
  unfold readOpcode
  rw [if_neg (by omega)]
  simp only [hm]

theorem readOpcode_noimm (maps : CS2OpcodeMappings) (st : DecState) (m : CS2OpcodeMapping)
    (hb : st.scan + 2 ≤ st.buffer.length)
    (hm : getMapping maps (readUInt16BE st.buffer st.scan : Nat) = Option.some m)
    (h1 : m.paramTypes.headD "" ≠ "int") (h2 : m.paramTypes.headD "" ≠ "component")
    (h3 : m.paramTypes.headD "" ≠ "string") :
    readOpcode maps st = Except.ok
      ⟨⟨(readUInt16BE st.buffer st.scan : Nat), 0, ImmObj.none,
        m.name, m.returnType, m.paramTypes⟩,
       ⟨st.buffer, st.scan + 2, st.endoffset⟩, Option.none⟩ := by
  unfold readOpcode
  rw [if_neg (by omega)]
  simp only [hm]
  by_cases hl : 0 < m.paramTypes.length
  · rw [if_pos hl, if_neg (fun hc => hc.elim h1 h2), if_neg h3]
  · rw [if_neg hl]

theorem readOpcode_intimm (maps : CS2OpcodeMappings) (st : DecState) (m : CS2OpcodeMapping)
    (hb : st.scan + 2 ≤ st.buffer.length)
    (hm : getMapping maps (readUInt16BE st.buffer st.scan : Nat) = Option.some m)
    (hfp : m.paramTypes.headD "" = "int" ∨ m.paramTypes.headD "" = "component")
    (hb4 : st.scan + 2 + 4 ≤ st.buffer.length) :
    readOpcode maps st = Except.ok
      ⟨⟨(readUInt16BE st.buffer st.scan : Nat), readInt32BE st.buffer (st.scan + 2),
        ImmObj.int (readInt32BE st.buffer (st.scan + 2)),
        m.name, m.returnType, m.paramTypes⟩,
       ⟨st.buffer, st.scan + 2 + 4, st.endoffset⟩, Option.none⟩ := by
  have hl : 0 < m.paramTypes.length := by
    cases hpt : m.paramTypes with
    | nil =>
      rw [hpt] at hfp
      simp at hfp
    | cons a l => simp
  unfold readOpcode
  rw [if_neg (by omega)]
  simp only [hm]
  rw [if_pos hl, if_pos hfp, if_neg (by omega)]

theorem readOpcode_strimm (maps : CS2OpcodeMappings) (st : DecState) (m : CS2OpcodeMapping)
    (stop : Nat)
    (hb : st.scan + 2 ≤ st.buffer.length)
    (hm : getMapping maps (readUInt16BE st.buffer st.scan : Nat) = Option.some m)
    (hfp : m.paramTypes.headD "" = "string")
    (hstop : scanToZero st.buffer (st.endoffset - (st.scan + 2)) (st.scan + 2) = stop) :
    readOpcode maps st = Except.ok
      ⟨⟨(readUInt16BE st.buffer st.scan : Nat), 0,
        ImmObj.str ((st.buffer.drop (st.scan + 2)).take (stop - (st.scan + 2))),
        m.name, m.returnType, m.paramTypes⟩,
       ⟨st.buffer, stop + 1, st.endoffset⟩, Option.none⟩ := by
  have hl : 0 < m.paramTypes.length := by
    cases hpt : m.paramTypes with
    | nil =>
      rw [hpt] at hfp
      simp at hfp
    | cons a l => simp
  unfold readOpcode
  rw [if_neg (by omega)]
  simp only [hm]
  rw [if_pos hl, if_neg (by rw [hfp]; simp), if_pos hfp, hstop]

/-- Claim C6: after parsing an opcode definition file, every well-formed line
has its data in both tables, read through the last-write-wins rule the claim
itself states: for the line at index i parsed to definition m, when no later
valid line re-declares m's opcode, lookupByOpcode(m.opcode) returns m (so in
particular its name equals the line's name), and when no later valid line
re-declares m's name, lookupByName(m.name) returns m.opcode.  The duplicated
case of the claim is this same statement applied to the later of the two
lines. -/
theorem C6_lookup_after_parse (content : List Char) (i : Nat) (m : CS2OpcodeMapping)
    (hi : i < (linesOf content).length)
    (hline : parseLineData ((linesOf content).getD i []) = Option.some m)
    (hop : ∀ j, i < j → j < (linesOf content).length →
      ∀ m', parseLineData ((linesOf content).getD j []) = Option.some m' →
        m'.opcode ≠ m.opcode)
    (hname : ∀ j, i < j → j < (linesOf content).length →
      ∀ m', parseLineData ((linesOf content).getD j []) = Option.some m' →
        m'.name ≠ m.name) :
    getMapping (parseFromString content) m.opcode = Option.some m ∧
    getOpcodeByName (parseFromString content) m.name = Option.some m.opcode :=
  parseLines_lookup (linesOf content) emptyMappings i m hi hline hop hname

/-- Witness for C6 on the two-line file 1 a t and then 2 b u: looking up
opcode 1 yields the first line's definition and looking up name a yields
opcode 1; the duplicate-free hypotheses hold because the only later line
declares opcode 2 and name b. -/
theorem C6_lookup_after_parse_witness :
    getMapping (parseFromString "1 a t\n2 b u".data) 1
      = Option.some ⟨1, "a", "t", []⟩ ∧
    getOpcodeByName (parseFromString "1 a t\n2 b u".data) "a" = Option.some 1 := by
  have h := C6_lookup_after_parse "1 a t\n2 b u".data 0 ⟨1, "a", "t", []⟩
    (by decide)
    (by rfl)
    (by
      intro j h1 h2 m' hm'
      have hj : j = 1 := by
        have : (linesOf "1 a t\n2 b u".data).length = 2 := by decide
        omega
      subst hj
      have hval : parseLineData ((linesOf "1 a t\n2 b u".data).getD 1 [])
          = Option.some ⟨2, "b", "u", []⟩ := by rfl
      have hm2 : m' = ⟨2, "b", "u", []⟩ := Option.some.inj (hm'.symm.trans hval)
      subst hm2
      decide)
    (by
      intro j h1 h2 m' hm'
      have hj : j = 1 := by
        have : (linesOf "1 a t\n2 b u".data).length = 2 := by decide
        omega
      subst hj
      have hval : parseLineData ((linesOf "1 a t\n2 b u".data).getD 1 [])
          = Option.some ⟨2, "b", "u", []⟩ := by rfl
      have hm2 : m' = ⟨2, "b", "u", []⟩ := Option.some.inj (hm'.symm.trans hval)
      subst hm2
      decide)
  exact h

/-- Claim C7, counterexample: the file with the two valid lines 1 a t and
1 b t (the same opcode twice) has 2 valid lines but a table of size 1, so
the table's size does not in general equal the count of valid lines. -/
theorem C7_counterexample :
    (validOpcodes (linesOf "1 a t\n1 b t".data)).length = 2 ∧
    (parseFromString "1 a t\n1 b t".data).mappings.length = 1 :=
  ⟨rfl, rfl⟩

/-- Claim C7 as amended: malformed lines (blank, comment, fewer than 3
tokens, or first token not parsing as an integer) contribute no entry and
parsing continues past them, and the table's size equals the number of
DISTINCT opcodes among the valid lines (duplicate opcodes overwrite, so
valid lines with a repeated opcode collapse to one entry). -/
theorem C7_malformed_skipped_size :
    ∀ content : List Char,
      (parseFromString content).mappings.length
        = (validOpcodes (linesOf content)).dedup.length ∧
      (∀ L l, parseLineData l = Option.none → parseLine L l = L) := by
  intro content
  constructor
  · obtain ⟨hnd, hfin⟩ := parseLines_keys (linesOf content) emptyMappings
      (by simp [emptyMappings])
    have hself : parseFromString content = parseLines emptyMappings (linesOf content) := rfl
    calc (parseFromString content).mappings.length
        = ((parseLines emptyMappings (linesOf content)).mappings.map Prod.fst).length := by
          rw [hself, List.length_map]
      _ = ((parseLines emptyMappings (linesOf content)).mappings.map Prod.fst).toFinset.card :=
          (List.toFinset_card_of_nodup hnd).symm
      _ = (validOpcodes (linesOf content)).toFinset.card := by
          rw [hfin]
          simp [emptyMappings]
      _ = (validOpcodes (linesOf content)).dedup.length := List.card_toFinset _
  · intro L l h
    simp [parseLine, h]

/-- Witness for the amended C7 on a file with a valid line, a malformed line
and a duplicate-opcode valid line: the table has one entry, and a comment
line leaves the loader untouched. -/
theorem C7_malformed_skipped_size_witness :
    (parseFromString "1 a t\nbad\n1 b t".data).mappings.length = 1 ∧
    parseLine emptyMappings "#x".data = emptyMappings := by
  constructor
  · exact (C7_malformed_skipped_size "1 a t\nbad\n1 b t".data).1.trans (by rfl)
  · exact (C7_malformed_skipped_size "".data).2 emptyMappings "#x".data (by rfl)

theorem readUInt16BE_opbytes (t : Nat) (rest : List Nat) :
    readUInt16BE (t / 256 :: t % 256 :: rest) 0 = t := by
  simp only [readUInt16BE, bufGetD, List.getD, List.get?, Option.getD_some]
  omega

/-- Claim C8: at any decode position whose 16-bit big-endian opcode has no
mapping in the table, decodeOne succeeds rather than failing, returns the
synthetic instruction named unknown_(opcode) with returnType unknown, empty
parameter types and no immediate, emits a diagnostic, and advances the
cursor by exactly 2 bytes. -/
theorem C8_unknown_opcode_recoverable (maps : CS2OpcodeMappings) (st : DecState)
    (hb : st.scan + 2 ≤ st.buffer.length)
    (hm : getMapping maps (readUInt16BE st.buffer st.scan : Nat) = Option.none) :
    readOpcode maps st = Except.ok
      ⟨⟨(readUInt16BE st.buffer st.scan : Nat), 0, ImmObj.none,
        "unknown_" ++ toString (readUInt16BE st.buffer st.scan), "unknown", []⟩,
       ⟨st.buffer, st.scan + 2, st.endoffset⟩,
       Option.some ("Unknown CS2 opcode: " ++ toString (readUInt16BE st.buffer st.scan))⟩ :=
  readOpcode_unknown maps st hb hm

/-- Witness for C8: opcode 9 is absent from the empty table, so decoding the
bytes 0, 9 yields the synthetic unknown_9 instruction with a warning and the
cursor at 2. -/
theorem C8_unknown_opcode_recoverable_witness :
    readOpcode emptyMappings ⟨[0, 9], 0, 2⟩ = Except.ok
      ⟨⟨9, 0, ImmObj.none, "unknown_9", "unknown", []⟩, ⟨[0, 9], 2, 2⟩,
       Option.some "Unknown CS2 opcode: 9"⟩ :=
  C8_unknown_opcode_recoverable emptyMappings ⟨[0, 9], 0, 2⟩ (by decide) (by rfl)

/-- Claim C9: for any opcode (of any table) whose first declared parameter
type is string, decoding the 5 bytes opcode-hi, opcode-lo, A, B, 0 yields
the string immediate AB (the UTF-8 bytes 65, 66) and leaves the cursor at
exactly 5 = 2 + 2 + 1. -/
theorem C9_string_immediate_decode (maps : CS2OpcodeMappings) (op : Nat)
    (m : CS2OpcodeMapping) (hop : op < 65536)
    (hm : getMapping maps (op : Int) = Option.some m)
    (hfp : m.paramTypes.headD "" = "string") :
    readOpcode maps ⟨[op / 256, op % 256, 65, 66, 0], 0, 5⟩ =
      Except.ok ⟨⟨(op : Int), 0, ImmObj.str [65, 66], m.name, m.returnType, m.paramTypes⟩,
        ⟨[op / 256, op % 256, 65, 66, 0], 5, 5⟩, Option.none⟩ := by
  have hread : readUInt16BE [op / 256, op % 256, 65, 66, 0] 0 = op := by
    simp only [readUInt16BE, bufGetD, List.getD, List.get?, Option.getD_some]
    omega
  have hm' : getMapping maps
      ((readUInt16BE [op / 256, op % 256, 65, 66, 0] 0 : Nat) : Int) = Option.some m := by
    rw [hread]
    exact hm
  have hstop : scanToZero [op / 256, op % 256, 65, 66, 0] (5 - (0 + 2)) (0 + 2) = 4 := by
    apply scanToZero_finds_zero _ _ _ _ (by omega) (by omega) (by rfl)
    intro i h1 h2
    interval_cases i <;> simp [List.get?]
  have h := readOpcode_strimm maps ⟨[op / 256, op % 256, 65, 66, 0], 0, 5⟩ m 4
    (by simp) hm' hfp hstop
  rw [hread] at h
  exact h

/-- Witness for C9 with the one-entry table strTable, whose opcode 1 has a
string first parameter. -/
theorem C9_string_immediate_decode_witness :
    readOpcode strTable ⟨[0, 1, 65, 66, 0], 0, 5⟩ =
      Except.ok ⟨⟨1, 0, ImmObj.str [65, 66], "f", "t", ["string"]⟩,
        ⟨[0, 1, 65, 66, 0], 5, 5⟩, Option.none⟩ :=
  C9_string_immediate_decode strTable 1 ⟨1, "f", "t", ["string"]⟩
    (by decide) (by rfl) (by rfl)

/-- Claim C10: when no zero byte occurs between the cursor (just after the
opcode) and streamEnd, decodeOne does not fail: the string immediate is the
byte range from the cursor up to streamEnd (exactly streamEnd - cursor
bytes, pointwise the buffer's bytes), and the cursor is left at
streamEnd + 1, one past the declared end of the stream. -/
theorem C10_unterminated_string (maps : CS2OpcodeMappings) (st : DecState)
    (m : CS2OpcodeMapping)
    (hb : st.scan + 2 ≤ st.buffer.length)
    (hm : getMapping maps (readUInt16BE st.buffer st.scan : Nat) = Option.some m)
    (hfp : m.paramTypes.headD "" = "string")
    (hc : st.scan + 2 ≤ st.endoffset)
    (hbl : st.endoffset ≤ st.buffer.length)
    (hnz : ∀ i, st.scan + 2 ≤ i → i < st.endoffset → st.buffer.get? i ≠ Option.some 0) :
    readOpcode maps st = Except.ok
      ⟨⟨(readUInt16BE st.buffer st.scan : Nat), 0,
        ImmObj.str ((st.buffer.drop (st.scan + 2)).take (st.endoffset - (st.scan + 2))),
        m.name, m.returnType, m.paramTypes⟩,
       ⟨st.buffer, st.endoffset + 1, st.endoffset⟩, Option.none⟩ ∧
    ((st.buffer.drop (st.scan + 2)).take (st.endoffset - (st.scan + 2))).length
      = st.endoffset - (st.scan + 2) ∧
    (∀ j, j < st.endoffset - (st.scan + 2) →
      ((st.buffer.drop (st.scan + 2)).take (st.endoffset - (st.scan + 2))).get? j
        = st.buffer.get? (st.scan + 2 + j)) := by
  have hstop : scanToZero st.buffer (st.endoffset - (st.scan + 2)) (st.scan + 2)
      = st.endoffset := by
    have h := scanToZero_of_all_nonzero st.buffer (st.endoffset - (st.scan + 2)) (st.scan + 2)
      (fun i h1 h2 => hnz i h1 (by omega))
    rw [h]
    omega
  refine ⟨readOpcode_strimm maps st m st.endoffset hb hm hfp hstop, ?_, ?_⟩
  · rw [List.length_take, List.length_drop]
    omega
  · intro j hj
    rw [List.get?_take hj, List.get?_drop]

/-- Witness for C10: the 4-byte stream opcode 1, A, B with streamEnd 4 and
no zero byte: the immediate is AB and the cursor ends at 5 = streamEnd + 1. -/
theorem C10_unterminated_string_witness :
    readOpcode strTable ⟨[0, 1, 65, 66], 0, 4⟩ = Except.ok
      ⟨⟨1, 0, ImmObj.str [65, 66], "f", "t", ["string"]⟩,
       ⟨[0, 1, 65, 66], 5, 4⟩, Option.none⟩ :=
  (C10_unterminated_string strTable ⟨[0, 1, 65, 66], 0, 4⟩ ⟨1, "f", "t", ["string"]⟩
    (by decide) (by rfl) (by rfl) (by decide) (by decide)
    (by
      intro i h1 h2
      interval_cases i <;> decide)).1

/-- Claim C2: when the 6-byte index entry for the record exists, stores a
positive size S and an offset O, and the data blob supplies at least S bytes
from O on, getFile succeeds and returns exactly S bytes that are pointwise
the blob's bytes in the range from O to O + S.  S and O are spelled out as
the big-endian recompositions of the entry's raw bytes. -/
theorem C2_getRecord_bytes (idx dat : List Nat) (minor S O : Nat)
    (hb : minor * 6 + 6 ≤ idx.length)
    (hS : bufGetD idx (minor * 6) * 65536 + bufGetD idx (minor * 6 + 1) * 256
      + bufGetD idx (minor * 6 + 2) = S)
    (hO : bufGetD idx (minor * 6 + 3) * 65536 + bufGetD idx (minor * 6 + 4) * 256
      + bufGetD idx (minor * 6 + 5) = O)
    (hS0 : 0 < S) (hr : O + S ≤ dat.length) :
    getFile idx dat minor = Except.ok ((dat.drop O).take S) ∧
    ((dat.drop O).take S).length = S ∧
    (∀ j, j < S → ((dat.drop O).take S).get? j = dat.get? (O + j)) := by
  have hS' : readUIntBE3 idx (minor * 6) = S := by
    simpa [readUIntBE3] using hS
  have hO' : readUIntBE3 idx (minor * 6 + 3) = O := by
    have : minor * 6 + 3 + 1 = minor * 6 + 4 := by omega
    have h2 : minor * 6 + 3 + 2 = minor * 6 + 5 := by omega
    simpa [readUIntBE3, this, h2] using hO
  have hmin : min S (dat.length - O) = S := by omega
  refine ⟨?_, ?_, ?_⟩
  · unfold getFile
    rw [if_neg (by omega), hS', hO', if_neg (by omega), if_neg (by rw [hmin]; simp)]
  · rw [List.length_take, List.length_drop]
    omega
  · intro j hj
    rw [List.get?_take hj, List.get?_drop]

/-- Witness for C2: index entry 0 stores size 3 and offset 2, the blob has
6 bytes, and the returned bytes are the blob's bytes 2, 3 and 4. -/
theorem C2_getRecord_bytes_witness :
    getFile [0, 0, 3, 0, 0, 2] [9, 8, 7, 6, 5, 4] 0 = Except.ok [7, 6, 5] := by
  have h := C2_getRecord_bytes [0, 0, 3, 0, 0, 2] [9, 8, 7, 6, 5, 4] 0 3 2
    (by decide) (by decide) (by decide) (by decide) (by decide)
  exact h.1

/-- Claim C3: getCacheIndex on an index file of L bytes enumerates exactly
floor(L / 6) slots, for recordIds 0 up to floor(L / 6) - 1; the slot at
recordId minor holds an entry exactly when the 3-byte big-endian size at
byte offset minor * 6 is strictly positive, and that entry carries the
stored size; a slot whose stored size is 0 is None, not a zero-filled
entry. -/
theorem C3_category_index (major : Nat) (buf : List Nat) :
    (getCacheIndex major buf).length = buf.length / 6 ∧
    ∀ minor, minor < buf.length / 6 →
      (getCacheIndex major buf).get? minor =
        Option.some
          (if 0 < bufGetD buf (minor * 6) * 65536 + bufGetD buf (minor * 6 + 1) * 256
              + bufGetD buf (minor * 6 + 2)
           then Option.some (mkCacheIndex major minor
              (bufGetD buf (minor * 6) * 65536 + bufGetD buf (minor * 6 + 1) * 256
                + bufGetD buf (minor * 6 + 2)))
           else Option.none) := by
  constructor
  · simp [getCacheIndex]
  · intro minor hm
    unfold getCacheIndex
    rw [List.get?_map, List.get?_range hm]
    simp [readUIntBE3]

/-- Witness for C3 on a 13-byte index file: two slots, the first present
with size 1, the second absent because its stored size is 0 (the trailing
13th byte does not make a third slot). -/
theorem C3_category_index_witness :
    (getCacheIndex 3 [0, 0, 1, 0, 0, 5, 0, 0, 0, 0, 0, 9, 0]).length = 2 ∧
    (getCacheIndex 3 [0, 0, 1, 0, 0, 5, 0, 0, 0, 0, 0, 9, 0]).get? 0
      = Option.some (Option.some (mkCacheIndex 3 0 1)) ∧
    (getCacheIndex 3 [0, 0, 1, 0, 0, 5, 0, 0, 0, 0, 0, 9, 0]).get? 1
      = Option.some Option.none := by
  have h := C3_category_index 3 [0, 0, 1, 0, 0, 5, 0, 0, 0, 0, 0, 9, 0]
  refine ⟨h.1.trans (by rfl), ?_, ?_⟩
  · rw [h.2 0 (by decide)]
    rfl
  · rw [h.2 1 (by decide)]
    rfl

/-- Claim C1, counterexample: the instruction for opcode 1 of strTable whose
string immediate is the single NUL byte satisfies the claim's hypothesis (its
immediate kind, string, matches the opcode's first declared parameter type),
yet decoding the encoded bytes stops at the NUL terminator and returns the
empty string immediate, so the immediate value is not preserved. -/
theorem C1_counterexample :
    kindMatches strTable nulInstr ∧
    (roundTrip strTable nulInstr).map (fun d => (d.opcode, d.imm_obj))
      ≠ Option.some (nulInstr.opcode, nulInstr.imm_obj) := by
  constructor
  · decide
  · decide

/-- Claim C1 as amended: for every Instruction whose immediate kind (none,
32-bit signed integer, or string) matches what its opcode's first declared
parameter type implies under the table, and whose string immediate (when it
is one) contains no NUL byte, decoding the bytes produced by encodeOne with
decodeOne preserves the opcode, the immediate value and the immediate
kind. -/
theorem C1_roundtrip (maps : CS2OpcodeMappings) (x : Instruction)
    (hk : kindMatches maps x) (hz : noNulImm x.imm_obj = true) :
    (roundTrip maps x).map (fun d => (d.opcode, d.imm_obj))
      = Option.some (x.opcode, x.imm_obj) := by
  obtain ⟨op, imm, obj, nm, rt, pt⟩ := x
  obtain ⟨h0, h16, h32, hkind⟩ := hk
  dsimp only at h0 h16 h32 hkind hz
  have hwne : ¬ (op < 0 ∨ 65535 < op) := by omega
  have hco : ((op.toNat : Nat) : Int) = op := Int.toNat_of_nonneg h0
  cases obj with
  | none =>
    have hw : writeOpCode ⟨op, imm, ImmObj.none, nm, rt, pt⟩
        = Except.ok [op.toNat / 256, op.toNat % 256] := by
      unfold writeOpCode
      rw [if_neg hwne]
    cases hmap : getMapping maps op with
    | none =>
      have hr := readOpcode_unknown maps
        ⟨[op.toNat / 256, op.toNat % 256], 0, ([op.toNat / 256, op.toNat % 256] : List Nat).length⟩
        (by simp)
        (by
          show getMapping maps _ = _
          rw [readUInt16BE_opbytes, hco]
          exact hmap)
      simp only [roundTrip, hw, hr, Option.map_some']
      rw [readUInt16BE_opbytes, hco]
    | some m =>
      have h123 : m.paramTypes.headD "" ≠ "int" ∧ m.paramTypes.headD "" ≠ "component"
          ∧ m.paramTypes.headD "" ≠ "string" := by
        simp only [immKind] at hkind
        unfold impliedKind at hkind
        rw [hmap] at hkind
        dsimp only at hkind
        by_cases hl : 0 < m.paramTypes.length
        · rw [if_pos hl] at hkind
          by_cases hic : m.paramTypes.headD "" = "int" ∨ m.paramTypes.headD "" = "component"
          · rw [if_pos hic] at hkind
            exact absurd hkind (by decide)
          · rw [if_neg hic] at hkind
            by_cases hs : m.paramTypes.headD "" = "string"
            · rw [if_pos hs] at hkind
              exact absurd hkind (by decide)
            · exact ⟨fun h => hic (Or.inl h), fun h => hic (Or.inr h), hs⟩
        · have hempty : m.paramTypes = [] := List.length_eq_zero.mp (by omega)
          rw [hempty]
          exact ⟨by decide, by decide, by decide⟩
      have hr := readOpcode_noimm maps
        ⟨[op.toNat / 256, op.toNat % 256], 0, ([op.toNat / 256, op.toNat % 256] : List Nat).length⟩
        m (by simp)
        (by
          show getMapping maps _ = _
          rw [readUInt16BE_opbytes, hco]
          exact hmap)
        h123.1 h123.2.1 h123.2.2
      simp only [roundTrip, hw, hr, Option.map_some']
      rw [readUInt16BE_opbytes, hco]
  | int i =>
    have hr32 : -2147483648 ≤ i ∧ i ≤ 2147483647 := h32
    have hw : writeOpCode ⟨op, imm, ImmObj.int i, nm, rt, pt⟩
        = Except.ok (op.toNat / 256 :: op.toNat % 256 :: int32ToBytes i) := by
      unfold writeOpCode
      rw [if_neg hwne]
      dsimp only
      rw [if_neg (by omega)]
      rfl
    cases hmap : getMapping maps op with
    | none =>
      exfalso
      simp only [immKind] at hkind
      unfold impliedKind at hkind
      rw [hmap] at hkind
      dsimp only at hkind
      exact absurd hkind (by decide)
    | some m =>
      have hfp : m.paramTypes.headD "" = "int" ∨ m.paramTypes.headD "" = "component" := by
        simp only [immKind] at hkind
        unfold impliedKind at hkind
        rw [hmap] at hkind
        dsimp only at hkind
        by_cases hl : 0 < m.paramTypes.length
        · rw [if_pos hl] at hkind
          by_cases hic : m.paramTypes.headD "" = "int" ∨ m.paramTypes.headD "" = "component"
          · exact hic
          · rw [if_neg hic] at hkind
            by_cases hs : m.paramTypes.headD "" = "string"
            · rw [if_pos hs] at hkind
              exact absurd hkind (by decide)
            · rw [if_neg hs] at hkind
              exact absurd hkind (by decide)
        · rw [if_neg hl] at hkind
          exact absurd hkind (by decide)
      have hr := readOpcode_intimm maps
        ⟨op.toNat / 256 :: op.toNat % 256 :: int32ToBytes i, 0,
          (op.toNat / 256 :: op.toNat % 256 :: int32ToBytes i : List Nat).length⟩
        m (by simp [int32ToBytes])
        (by
          show getMapping maps _ = _
          rw [readUInt16BE_opbytes, hco]
          exact hmap)
        hfp (by simp [int32ToBytes])
      have hval : readInt32BE (op.toNat / 256 :: op.toNat % 256 :: int32ToBytes i) (0 + 2)
          = i := by
        simpa using readInt32BE_int32ToBytes (op.toNat / 256) (op.toNat % 256) i hr32.1 hr32.2
      simp only [roundTrip, hw, hr, Option.map_some']
      rw [readUInt16BE_opbytes, hco, hval]
  | str s =>
    have hzc : s.contains 0 = false := by simpa [noNulImm] using hz
    have hmem0 : (0 : Nat) ∉ s := by simpa using hzc
    have hw : writeOpCode ⟨op, imm, ImmObj.str s, nm, rt, pt⟩
        = Except.ok (op.toNat / 256 :: op.toNat % 256 :: (s ++ [0])) := by
      unfold writeOpCode
      rw [if_neg hwne]
      rfl
    cases hmap : getMapping maps op with
    | none =>
      exfalso
      simp only [immKind] at hkind
      unfold impliedKind at hkind
      rw [hmap] at hkind
      dsimp only at hkind
      exact absurd hkind (by decide)
    | some m =>
      have hfp : m.paramTypes.headD "" = "string" := by
        simp only [immKind] at hkind
        unfold impliedKind at hkind
        rw [hmap] at hkind
        dsimp only at hkind
        by_cases hl : 0 < m.paramTypes.length
        · rw [if_pos hl] at hkind
          by_cases hic : m.paramTypes.headD "" = "int" ∨ m.paramTypes.headD "" = "component"
          · rw [if_pos hic] at hkind
            exact absurd hkind (by decide)
          · rw [if_neg hic] at hkind
            by_cases hs : m.paramTypes.headD "" = "string"
            · exact hs
            · rw [if_neg hs] at hkind
              exact absurd hkind (by decide)
        · rw [if_neg hl] at hkind
          exact absurd hkind (by decide)
      have hlen : (op.toNat / 256 :: op.toNat % 256 :: (s ++ [0]) : List Nat).length
          = s.length + 3 := by
        simp
      have hstop : scanToZero (op.toNat / 256 :: op.toNat % 256 :: (s ++ [0]))
          ((op.toNat / 256 :: op.toNat % 256 :: (s ++ [0]) : List Nat).length - (0 + 2))
          (0 + 2) = s.length + 2 := by
        rw [hlen]
        apply scanToZero_finds_zero _ _ _ _ (by omega) (by omega)
        · rw [show s.length + 2 = s.length + 1 + 1 from rfl, List.get?_cons_succ,
            List.get?_cons_succ]
          exact List.get?_concat_length _ _
        · intro j h1 h2 hcon
          obtain ⟨k, rfl⟩ : ∃ k, j = k + 2 := ⟨j - 2, by omega⟩
          rw [show k + 2 = k + 1 + 1 from rfl, List.get?_cons_succ,
            List.get?_cons_succ] at hcon
          rw [List.get?_append (by omega : k < s.length)] at hcon
          exact hmem0 (List.get?_mem hcon)
      have hr := readOpcode_strimm maps
        ⟨op.toNat / 256 :: op.toNat % 256 :: (s ++ [0]), 0,
          (op.toNat / 256 :: op.toNat % 256 :: (s ++ [0]) : List Nat).length⟩
        m (s.length + 2)
        (by simp)
        (by
          show getMapping maps _ = _
          rw [readUInt16BE_opbytes, hco]
          exact hmap)
        hfp hstop
      simp only [roundTrip, hw, hr, Option.map_some']
      rw [readUInt16BE_opbytes, hco]
      have hslice : ((op.toNat / 256 :: op.toNat % 256 :: (s ++ [0]) : List Nat).drop
          (0 + 2)).take (s.length + 2 - (0 + 2)) = s := by
        simp [List.take_left]
      rw [hslice]

/-- Witness for the amended C1, one instance per immediate kind over
strTable extended mentally to its single opcode: the string instruction for
opcode 1 with NUL-free immediate 65 round-trips. -/
theorem C1_roundtrip_witness :
    (roundTrip strTable ⟨1, 0, ImmObj.str [65], "f", "t", ["string"]⟩).map
        (fun d => (d.opcode, d.imm_obj))
      = Option.some ((1 : Int), ImmObj.str [65]) :=
  C1_roundtrip strTable ⟨1, 0, ImmObj.str [65], "f", "t", ["string"]⟩
    (by decide) (by decide)

/-- Claim C4: on a registered category, getFile fails and returns no bytes
whenever the record's 6-byte index entry would extend past the index file
or the entry's stored 3-byte size is 0; the two failures are the ones the
specification's taxonomy groups as RecordNotFound. -/
theorem C4_record_not_found (idx dat : List Nat) (minor : Nat)
    (h : idx.length < minor * 6 + 6 ∨ readUIntBE3 idx (minor * 6) = 0) :
    ∃ e, getFile idx dat minor = Except.error e ∧ recordNotFound e := by
  by_cases hb : idx.length < minor * 6 + 6
  · refine ⟨LegacyErr.notFoundInIndex, ?_, Or.inl rfl⟩
    unfold getFile
    rw [if_pos hb]
  · have hz : readUIntBE3 idx (minor * 6) = 0 := by
      rcases h with h | h
      · exact absurd h hb
      · exact h
    refine ⟨LegacyErr.zeroSize, ?_, Or.inr rfl⟩
    unfold getFile
    rw [if_neg hb, if_pos hz]

/-- Witness for C4: a 6-byte index whose only entry stores size 0 gives the
zero-size failure, and requesting record 1 of the same index reaches past
its length and gives the not-in-index failure. -/
theorem C4_record_not_found_witness :
    (∃ e, getFile [0, 0, 0, 0, 0, 2] [9, 8, 7] 0 = Except.error e ∧ recordNotFound e) ∧
    (∃ e, getFile [0, 0, 3, 0, 0, 2] [9, 8, 7] 1 = Except.error e ∧ recordNotFound e) :=
  ⟨C4_record_not_found [0, 0, 0, 0, 0, 2] [9, 8, 7] 0 (Or.inr (by decide)),
   C4_record_not_found [0, 0, 3, 0, 0, 2] [9, 8, 7] 1 (Or.inl (by decide))⟩

/-- Claim C5, counterexample: in a directory with two .dat files and two .jag
files the old-binary and classic counts are tied at the strictly positive
maximum (all other counts zero), yet the detector selects the classic store:
the old-binary check's body is an empty TODO that falls through, so a
dat/jag tie does NOT select the old-binary store — no old-binary store can
be selected at all. -/
theorem C5_counterexample :
    countExt ["a.dat".data, "b.dat".data, "c.jag".data, "d.jag".data] "dat".data = 2 ∧
    countExt ["a.dat".data, "b.dat".data, "c.jag".data, "d.jag".data] "jag".data = 2 ∧
    countExt ["a.dat".data, "b.dat".data, "c.jag".data, "d.jag".data] "jcache".data = 0 ∧
    countExt ["a.dat".data, "b.dat".data, "c.jag".data, "d.jag".data] "dat2".data = 0 ∧
    countIdx ["a.dat".data, "b.dat".data, "c.jag".data, "d.jag".data] = 0 ∧
    selectFsCache FsKind.cli ["a.dat".data, "b.dat".data, "c.jag".data, "d.jag".data]
      = Except.ok CacheChoice.classic := by
  refine ⟨rfl, rfl, rfl, rfl, rfl, rfl⟩

/-- Claim C5 as amended: ties at the strictly positive maximum are resolved
in the order the checks are evaluated and return a store: modern cache
first, then legacy-index (only together with at least one dat2 file), then
classic; the old-binary and old-binary-compressed checks are unimplemented
(empty TODO bodies) and never select a store, so in particular a tie
between the old-binary count and the classic count selects the CLASSIC
store. -/
theorem C5_tie_precedence (files : List (List Char)) (jc da d2 ja ix mx : Nat)
    (hjc : jc = countExt files "jcache".data)
    (hda : da = countExt files "dat".data)
    (hd2e : d2 = countExt files "dat2".data)
    (hja : ja = countExt files "jag".data)
    (hix : ix = countIdx files)
    (hmxe : mx = max (max (max (max jc da) d2) ja) ix)
    (hpos : 0 < mx) :
    (jc = mx → selectFsCache FsKind.cli files = Except.ok CacheChoice.modernSqlite) ∧
    (jc < mx → ix = mx → 0 < d2 →
      selectFsCache FsKind.cli files = Except.ok CacheChoice.legacy) ∧
    (jc < mx → (ix < mx ∨ d2 = 0) → ja = mx →
      selectFsCache FsKind.cli files = Except.ok CacheChoice.classic) := by
  subst hjc hda hd2e hja hix hmxe
  refine ⟨?_, ?_, ?_⟩
  · intro hj
    unfold selectFsCache
    rw [if_neg (by omega), if_pos (by omega)]
  · intro hj hixm hd2
    unfold selectFsCache
    rw [if_neg (by omega), if_neg (by omega), if_pos (⟨by omega, hd2⟩)]
  · intro hj hnoleg hja
    unfold selectFsCache
    rw [if_neg (by omega), if_neg (by omega),
      if_neg (by
        rintro ⟨h1, h2⟩
        rcases hnoleg with h | h <;> omega),
      if_pos (by omega)]

/-- Witness for the amended C5: a directory with a single .jag file takes
the classic branch (no jcache, no legacy-index). -/
theorem C5_tie_precedence_witness :
    selectFsCache FsKind.cli ["x.jag".data] = Except.ok CacheChoice.classic :=
  (C5_tie_precedence ["x.jag".data] 0 0 0 1 0 1 (by rfl) (by rfl) (by rfl) (by rfl)
    (by rfl) (by rfl) (by decide)).2.2 (by decide) (Or.inl (by decide)) (by decide)

end Rsmv
